import Mathlib

/-! The Bloblang processor of `lib/processor/bloblang.go`.

A shallow embedding of `Bloblang.ProcessMessage`: the batch loop, the three
outcomes of `MapPart` (a produced part, a deletion, an error), the four
counters, the logger and the tracing spans. The metrics, logging and tracing
backends are modelled as an explicit record of everything they have received.
-/

namespace Benthos

/-! ## Data model -/

/-- A message part (`types.Part`): payload bytes, metadata, the tracing span it
carries from upstream (if any) and the recoverable-error flag (if any). -/
structure Part where
  data : List Nat
  metadata : List (String × String)
  span : Option Nat
  failFlag : Option String
deriving DecidableEq, Repr

/-- A batch (`types.Message`): the ordered sequence of its parts. -/
abbrev Message := List Part

/-- A non-nil Go `error`: the only thing the processor reads from it is the text
of `err.Error()`, the failure reason. -/
structure GoError where
  Error : String
deriving DecidableEq, Repr

/-- A response (`types.Response`) that a processor may return instead of
messages. -/
structure Response where
  err : Option GoError
deriving DecidableEq, Repr

/-- The mapping engine (`mapping.Executor`), seen through `MapPart(i, msg)`, which
returns a pair `(types.Part, error)`; either component may be nil. One call of
`ProcessMessage` calls `MapPart` once per position, always with the same batch,
so any behaviour of the engine during a call is a function of the position. -/
structure Executor where
  MapPart : Nat → Message → Option Part × Option GoError

/-- The processor (`Bloblang`): it owns the compiled mapping. Its logger and
counters are handles into the backends, whose state is `Backends`. -/
structure Bloblang where
  exec : Executor

/-- One call received by the tracing backend. The span object created while
processing the part at position `unit` is identified by that position. -/
inductive SpanEvent where
  | StartSpan (unit : Nat) (operation : String) (parent : Option Nat)
  | SetTag (unit : Nat) (key : String) (value : Bool)
  | LogFields (unit : Nat) (fields : List (String × String))
  | Finish (unit : Nat)
deriving DecidableEq, Repr

/-- The state of the metrics, logging and tracing backends: the counters
registered by `NewBloblang` under "count", "error", "sent" and "batch.sent",
the lines passed to the logger, and the calls made to the tracer, oldest
first. -/
structure Backends where
  mCount : Nat
  mErr : Nat
  mSent : Nat
  mBatchSent : Nat
  log : List String
  spans : List SpanEvent
deriving DecidableEq, Repr

/-- The local state of the loop in `ProcessMessage`: the slice `newParts` and the
backends. -/
structure LoopState where
  newParts : List Part
  env : Backends
deriving DecidableEq, Repr

/-- What `ProcessMessage` returns, `([]types.Message, types.Response)`, together
with the backends after the call. -/
structure Result where
  msgs : List Message
  resp : Option Response
  env : Backends
deriving DecidableEq, Repr

/-! ## Collaborators -/

/-- Modelled from the spec: the constant `TypeBloblang` (declared outside this
file); the span's operation name identifies this stage type, which the
configuration examples of the source spell `bloblang`. -/
def TypeBloblang : String := "bloblang"

/-- Modelled from the spec: `tracing.GetSpan`; a unit carries zero or one
attached tracing context, which is read without being changed. -/
def GetSpan (part : Part) : Option Nat := part.span

/-- Modelled from the spec: `Part.Copy`; a defensive copy of the original,
unmodified unit. -/
def Part.Copy (p : Part) : Part :=
  { data := p.data, metadata := p.metadata, span := p.span, failFlag := p.failFlag }

/-- Modelled from the spec: `FlagErr`; the unit is annotated with a
recoverable-error flag carrying the failure reason. -/
def FlagErr (p : Part) (err : GoError) : Part :=
  { p with failFlag := some err.Error }

/-- Modelled from the spec: `Message.Iter`; the units are visited in original
order, one at a time. The callback has Go type `func(int, Part) error`, and a
non-nil error ends the iteration. -/
def iterFrom {σ : Type} (f : Nat → Part → σ → σ × Option GoError) :
    Nat → List Part → σ → σ × Option GoError
  | _, [], s => (s, none)
  | i, p :: ps, s =>
    match f i p s with
    | (s1, some e) => (s1, some e)
    | (s1, none) => iterFrom f (i + 1) ps s1

/-- Iterate over a whole batch: `msg.Iter(f)`. -/
def Message.Iter {σ : Type} (msg : Message) (f : Nat → Part → σ → σ × Option GoError)
    (s : σ) : σ × Option GoError :=
  iterFrom f 0 msg s

/-- Modelled from the spec: `message.New(nil)` followed by `SetAll(newParts)`; a
new batch is constructed fresh for output and holds exactly the given parts. -/
def Message.SetAll (_fresh : Message) (parts : List Part) : Message := parts

/-- The fresh empty batch `message.New(nil)`. -/
def Message.New : Message := []

/-- The call `msg.Len()`. -/
def Message.Len (msg : Message) : Nat := msg.length

/-- Record one call to the tracer. -/
def Backends.trace (w : Backends) (ev : SpanEvent) : Backends :=
  { w with spans := w.spans ++ [ev] }

/-- The call `b.log.Errorf("%v\n", err)`: one line, the error text and a
newline. -/
def Backends.Errorf (w : Backends) (err : GoError) : Backends :=
  { w with log := w.log ++ [err.Error ++ "\n"] }

/-! ## The processor -/

/-- The body of the closure passed to `msg.Iter` (source lines 133 to 162). -/
def processPart (b : Bloblang) (msg : Message) (i : Nat) (part : Part) (s : LoopState) :
    LoopState × Option GoError :=
  -- span := opentracing.StartSpan(TypeBloblang [, ChildOf(span.Context())])
  let w1 := s.env.trace (SpanEvent.StartSpan i TypeBloblang (GetSpan part))
  -- p, err := b.exec.MapPart(i, msg)
  let r := b.exec.MapPart i msg
  let branch : Option Part × Backends :=
    match r.2 with
    | some err =>
      let p := part.Copy
      let w2 := { w1 with mErr := w1.mErr + 1 }
      let w3 := w2.Errorf err
      let p := FlagErr p err
      let w4 := w3.trace (SpanEvent.SetTag i "error" true)
      let w5 := w4.trace (SpanEvent.LogFields i [("event", "error"), ("type", err.Error)])
      (some p, w5)
    | none => (r.1, w1)
  let p := branch.1
  -- span.Finish()
  let w6 := branch.2.trace (SpanEvent.Finish i)
  -- if err != nil || p != nil { newParts = append(newParts, p) }
  -- (whenever the test holds `p` is non-nil: it is the copy, or the engine's unit)
  let newParts := if r.2.isSome || p.isSome then s.newParts ++ p.toList else s.newParts
  ({ newParts := newParts, env := w6 }, none)

/-- The method `Bloblang.ProcessMessage` (source lines 128 to 170). -/
def ProcessMessage (b : Bloblang) (msg : Message) (w : Backends) : Result :=
  let w1 := { w with mCount := w.mCount + 1 }
  let s := (msg.Iter (processPart b msg) { newParts := [], env := w1 }).1
  let newMsg := Message.New.SetAll s.newParts
  let w2 := { s.env with mBatchSent := s.env.mBatchSent + 1 }
  let w3 := { w2 with mSent := w2.mSent + newMsg.Len }
  { msgs := [newMsg], resp := none, env := w3 }

/-- Any number of calls, one after the other, on the same backends: each call
has its own batch and its own behaviour of the mapping engine. -/
def runCalls (w : Backends) (calls : List (Bloblang × Message)) : Backends :=
  calls.foldl (fun acc c => (ProcessMessage c.1 c.2 acc).env) w

/-! ## Vocabulary of the properties

The definitions from here on are not part of the program. They name what the
properties talk about: the outcome at a position, the unit and the tracer calls
owed to it, the counts over a batch and over several calls, and sample inputs.
-/

/-- The single batch returned by a call (the head of the returned slice). -/
def Result.batch (r : Result) : Message := r.msgs.headD []

/-- The tracer calls made during a call that started with backends `w`. -/
def Result.emitted (r : Result) (w : Backends) : List SpanEvent :=
  r.env.spans.drop w.spans.length

/-- The outcome at position `i` is Failed: `MapPart` returned an error. -/
def failed (b : Bloblang) (msg : Message) (i : Nat) : Bool :=
  (b.exec.MapPart i msg).2.isSome

/-- The outcome at position `i` is Deleted: no unit and no error. -/
def deleted (b : Bloblang) (msg : Message) (i : Nat) : Bool :=
  (b.exec.MapPart i msg).2.isNone && (b.exec.MapPart i msg).1.isNone

/-- The outcome at position `i` is Replaced: a unit and no error. -/
def replaced (b : Bloblang) (msg : Message) (i : Nat) : Bool :=
  (b.exec.MapPart i msg).2.isNone && (b.exec.MapPart i msg).1.isSome

/-- Number of positions of the batch whose outcome is Deleted. -/
def deletedCount (b : Bloblang) (msg : Message) : Nat :=
  (List.range msg.length).countP (deleted b msg)

/-- Number of positions of the batch whose outcome is Failed. -/
def failedCount (b : Bloblang) (msg : Message) : Nat :=
  (List.range msg.length).countP (failed b msg)

/-- Number of positions of the batch whose outcome is Replaced. -/
def replacedCount (b : Bloblang) (msg : Message) : Nat :=
  (List.range msg.length).countP (replaced b msg)

/-- The output unit owed to the part at position `i`, by outcome: the flagged
copy of the original when Failed, the produced unit when Replaced, nothing when
Deleted. -/
def unitFor (b : Bloblang) (msg : Message) (i : Nat) (part : Part) : Option Part :=
  match (b.exec.MapPart i msg).2 with
  | some err => some (FlagErr part.Copy err)
  | none => (b.exec.MapPart i msg).1

/-- The output unit owed to position `i` of the batch (nothing outside it). -/
def unitAt (b : Bloblang) (msg : Message) (i : Nat) : Option Part :=
  match msg[i]? with
  | some part => unitFor b msg i part
  | none => none

/-- Position `i` survives: it is in the batch and its outcome is not Deleted. -/
def survives (b : Bloblang) (msg : Message) (i : Nat) : Bool :=
  (unitAt b msg i).isSome

/-- Number of surviving positions strictly before `i`. -/
def outIndex (b : Bloblang) (msg : Message) (i : Nat) : Nat :=
  (List.range i).countP (survives b msg)

/-- The output batch with the unit of position `i` (if it has one) taken out. -/
def withoutUnit (b : Bloblang) (msg : Message) (i : Nat) (out : Message) : Message :=
  if survives b msg i then out.eraseIdx (outIndex b msg i) else out

/-- The position whose span a tracer call is about. -/
def SpanEvent.unit : SpanEvent → Nat
  | .StartSpan u _ _ => u
  | .SetTag u _ _ => u
  | .LogFields u _ => u
  | .Finish u => u

/-- A tracer call that starts a span. -/
def SpanEvent.isStart : SpanEvent → Bool
  | .StartSpan _ _ _ => true
  | _ => false

/-- A tracer call that finishes a span. -/
def SpanEvent.isFinish : SpanEvent → Bool
  | .Finish _ => true
  | _ => false

/-- The tracer calls owed to the part at position `i`, by outcome. -/
def unitEvents (b : Bloblang) (msg : Message) (i : Nat) (part : Part) : List SpanEvent :=
  match (b.exec.MapPart i msg).2 with
  | some err =>
    [SpanEvent.StartSpan i TypeBloblang (GetSpan part),
     SpanEvent.SetTag i "error" true,
     SpanEvent.LogFields i [("event", "error"), ("type", err.Error)],
     SpanEvent.Finish i]
  | none =>
    [SpanEvent.StartSpan i TypeBloblang (GetSpan part), SpanEvent.Finish i]

/-- The log lines owed to position `i`, by outcome. -/
def unitLog (b : Bloblang) (msg : Message) (i : Nat) : List String :=
  match (b.exec.MapPart i msg).2 with
  | some err => [err.Error ++ "\n"]
  | none => []

/-! ## Totals over several calls -/

/-- Backends with every counter at zero and nothing logged or traced. -/
def Backends.zero : Backends :=
  { mCount := 0, mErr := 0, mSent := 0, mBatchSent := 0, log := [], spans := [] }

/-- Total number of units in the batches of the calls (U). -/
def totalUnits (calls : List (Bloblang × Message)) : Nat :=
  (calls.map (fun c => c.2.length)).sum

/-- Total number of deleted units over the calls (D). -/
def totalDeleted (calls : List (Bloblang × Message)) : Nat :=
  (calls.map (fun c => deletedCount c.1 c.2)).sum

/-- Total number of failed units over the calls (E). -/
def totalFailed (calls : List (Bloblang × Message)) : Nat :=
  (calls.map (fun c => failedCount c.1 c.2)).sum

/-- Total number of replaced units over the calls. -/
def totalReplaced (calls : List (Bloblang × Message)) : Nat :=
  (calls.map (fun c => replacedCount c.1 c.2)).sum

/-! ## Sample inputs -/

/-- A part with a payload, one metadata entry and no upstream span. -/
def partA : Part :=
  { data := [123, 34, 97, 34, 58, 49, 125], metadata := [("topic", "shows")],
    span := none, failFlag := none }

/-- A part that carries an upstream span. -/
def partB : Part :=
  { data := [110, 111, 112, 101], metadata := [], span := some 7, failFlag := none }

/-- A part with an empty payload, as an engine may produce. -/
def partEmpty : Part :=
  { data := [], metadata := [("mapped", "yes")], span := none, failFlag := none }

/-- A batch of three parts. -/
def sampleBatch : Message := [partA, partB, partA]

/-- An engine that replaces position 0 by an empty payload, deletes position 1
and fails everywhere else (returning a unit alongside the error). -/
def sampleProc : Bloblang :=
  { exec := { MapPart := fun i _ =>
      match i with
      | 0 => (some partEmpty, none)
      | 1 => (none, none)
      | _ => (some partEmpty, some { Error := "failed to execute mapping" }) } }

/-- The same engine, except that it fails at position 1. -/
def sampleProcFailing : Bloblang :=
  { exec := { MapPart := fun i _ =>
      match i with
      | 0 => (some partEmpty, none)
      | _ => (some partEmpty, some { Error := "failed to execute mapping" }) } }

/-! ## The loop, in closed form -/

/-- One step of the loop, by outcome. -/
theorem processPart_eq (b : Bloblang) (msg : Message) (i : Nat) (part : Part) (s : LoopState) :
    processPart b msg i part s =
      ({ newParts := s.newParts ++ (unitFor b msg i part).toList,
         env := { mCount := s.env.mCount,
                  mErr := s.env.mErr + (if failed b msg i then 1 else 0),
                  mSent := s.env.mSent,
                  mBatchSent := s.env.mBatchSent,
                  log := s.env.log ++ unitLog b msg i,
                  spans := s.env.spans ++ unitEvents b msg i part } }, none) := by
  unfold processPart unitFor failed unitLog unitEvents
  rcases h : b.exec.MapPart i msg with ⟨p, err⟩
  cases err with
  | some err => simp [Backends.trace, Backends.Errorf]
  | none => cases p <;> simp [Backends.trace]

/-- The whole loop, started at position `k` on the parts `ps`. -/
theorem iterFrom_processPart (b : Bloblang) (msg : Message) (ps : List Part) :
    ∀ (k : Nat) (s : LoopState),
      iterFrom (processPart b msg) k ps s =
        ({ newParts := s.newParts ++ (ps.enumFrom k).filterMap (fun x => unitFor b msg x.1 x.2),
           env := { mCount := s.env.mCount,
                    mErr := s.env.mErr + (ps.enumFrom k).countP (fun x => failed b msg x.1),
                    mSent := s.env.mSent,
                    mBatchSent := s.env.mBatchSent,
                    log := s.env.log ++ (ps.enumFrom k).flatMap (fun x => unitLog b msg x.1),
                    spans := s.env.spans
                      ++ (ps.enumFrom k).flatMap (fun x => unitEvents b msg x.1 x.2) } },
         none) := by
  induction ps with
  | nil => intro k s; simp [iterFrom]
  | cons p ps ih =>
    intro k s
    simp only [iterFrom, processPart_eq, ih, List.enumFrom_cons, List.flatMap_cons,
      List.countP_cons, List.filterMap_cons]
    cases hu : unitFor b msg k p <;> cases hf : failed b msg k <;>
      simp [Nat.add_assoc, Nat.add_comm]

/-! ## Lists indexed by position -/

/-- Filtering an enumerated list is filtering the range of its positions. -/
theorem filterMap_enumFrom_eq_range {α β : Type} (g : Nat → α → Option β) (ps : List α) :
    ∀ k : Nat, (ps.enumFrom k).filterMap (fun x => g x.1 x.2) =
      (List.range ps.length).filterMap (fun j => (ps[j]?).bind (g (k + j))) := by
  induction ps with
  | nil => intro k; simp
  | cons p ps ih =>
    intro k
    rw [List.enumFrom_cons, List.length_cons, List.range_succ_eq_map, List.filterMap_cons,
      List.filterMap_cons, List.filterMap_map, ih (k + 1)]
    have hfun : (fun j => (ps[j]?).bind (g (k + 1 + j))) =
        ((fun j => ((p :: ps)[j]?).bind (g (k + j))) ∘ Nat.succ) := by
      funext j
      simp [Nat.add_assoc, Nat.add_comm 1 j]
    rw [hfun]
    simp

/-- Counting over an enumerated list is counting over the range of its positions. -/
theorem countP_enumFrom_eq_range {α : Type} (q : Nat → Bool) (ps : List α) :
    ∀ k : Nat, (ps.enumFrom k).countP (fun x => q x.1) =
      (List.range ps.length).countP (fun j => q (k + j)) := by
  induction ps with
  | nil => intro k; simp
  | cons p ps ih =>
    intro k
    rw [List.enumFrom_cons, List.length_cons, List.range_succ_eq_map, List.countP_cons,
      List.countP_cons, List.countP_map, ih (k + 1)]
    have hfun : (fun j => q (k + 1 + j)) = ((fun j => q (k + j)) ∘ Nat.succ) := by
      funext j
      simp [Nat.add_assoc, Nat.add_comm 1 j]
    rw [hfun]
    simp

/-- The survivors of a range are as many as the positions that produce a value. -/
theorem length_filterMap_range {β : Type} (f : Nat → Option β) (n : Nat) :
    ((List.range n).filterMap f).length = (List.range n).countP (fun i => (f i).isSome) := by
  induction n with
  | zero => simp
  | succ n ih =>
    rw [List.range_succ, List.filterMap_append, List.countP_append, List.length_append, ih]
    cases h : f n <;> simp [h]

/-- The value produced at position `i` sits at the index that counts the
producing positions before `i`. -/
theorem getElem?_filterMap_range {β : Type} (f : Nat → Option β) (n i : Nat) (u : β)
    (hi : i < n) (hu : f i = some u) :
    ((List.range n).filterMap f)[(List.range i).countP (fun j => (f j).isSome)]? = some u := by
  induction n with
  | zero => omega
  | succ n ih =>
    rw [List.range_succ, List.filterMap_append]
    by_cases hlt : i < n
    · have hget := ih hlt
      have hlen : (List.range i).countP (fun j => (f j).isSome)
          < ((List.range n).filterMap f).length := by
        by_contra hcon
        rw [List.getElem?_eq_none (Nat.le_of_not_lt hcon)] at hget
        exact absurd hget (by simp)
      rw [List.getElem?_append_left hlen]
      exact hget
    · have hin : i = n := by omega
      subst hin
      rw [← length_filterMap_range f i, List.getElem?_append_right (Nat.le_refl _)]
      simp [hu]

/-- Counting over a range grows with the range. -/
theorem countP_range_mono (q : Nat → Bool) {i j : Nat} (h : i ≤ j) :
    (List.range i).countP q ≤ (List.range j).countP q := by
  induction j with
  | zero =>
    have hi : i = 0 := by omega
    subst hi
    exact Nat.le_refl _
  | succ j ih =>
    by_cases hij : i ≤ j
    · rw [List.range_succ, List.countP_append]
      exact Nat.le_trans (ih hij) (Nat.le_add_right _ _)
    · have hi : i = j + 1 := by omega
      subst hi
      exact Nat.le_refl _

/-- A position that satisfies the predicate is counted strictly before any later
position. -/
theorem countP_range_lt (q : Nat → Bool) {i j : Nat} (h : i < j) (hq : q i = true) :
    (List.range i).countP q < (List.range j).countP q := by
  have hstep : (List.range (i + 1)).countP q = (List.range i).countP q + 1 := by
    rw [List.range_succ, List.countP_append]
    simp [hq]
  have hmono : (List.range (i + 1)).countP q ≤ (List.range j).countP q :=
    countP_range_mono q h
  omega

/-- Every index below the count is the count of some satisfying position. -/
theorem exists_countP_range_eq (q : Nat → Bool) (n : Nat) :
    ∀ k : Nat, k < (List.range n).countP q →
      ∃ i : Nat, i < n ∧ q i = true ∧ (List.range i).countP q = k := by
  induction n with
  | zero => intro k hk; simp at hk
  | succ n ih =>
    intro k hk
    rw [List.range_succ, List.countP_append] at hk
    by_cases hlt : k < (List.range n).countP q
    · obtain ⟨i, hi, hqi, hc⟩ := ih k hlt
      exact ⟨i, Nat.lt_succ_of_lt hi, hqi, hc⟩
    · cases hq : q n with
      | true =>
        refine ⟨n, Nat.lt_succ_self n, hq, ?_⟩
        simp [hq] at hk
        omega
      | false =>
        simp [hq] at hk
        omega

/-! ## One call, in closed form -/

/-- The output unit owed to a position, read through the enumeration. -/
theorem unitAt_eq_match (b : Bloblang) (msg : Message) :
    (fun j => (msg[j]?).bind (unitFor b msg (0 + j))) = unitAt b msg := by
  funext j
  unfold unitAt
  cases msg[j]? <;> simp

/-- The result of one call: the batch, the response and every backend. -/
theorem ProcessMessage_eq (b : Bloblang) (msg : Message) (w : Backends) :
    ProcessMessage b msg w =
      { msgs := [(List.range msg.length).filterMap (unitAt b msg)],
        resp := none,
        env := { mCount := w.mCount + 1,
                 mErr := w.mErr + failedCount b msg,
                 mSent := w.mSent + ((List.range msg.length).filterMap (unitAt b msg)).length,
                 mBatchSent := w.mBatchSent + 1,
                 log := w.log ++ (msg.enumFrom 0).flatMap (fun x => unitLog b msg x.1),
                 spans := w.spans
                   ++ (msg.enumFrom 0).flatMap (fun x => unitEvents b msg x.1 x.2) } } := by
  have hparts := filterMap_enumFrom_eq_range (unitFor b msg) msg 0
  rw [unitAt_eq_match] at hparts
  have hfail := countP_enumFrom_eq_range (failed b msg) msg 0
  simp only [Nat.zero_add] at hfail
  simp only [ProcessMessage, Message.Iter, iterFrom_processPart, Message.SetAll, Message.Len,
    List.nil_append, hparts, hfail, failedCount]

/-- The batch returned by one call. -/
theorem ProcessMessage_batch (b : Bloblang) (msg : Message) (w : Backends) :
    (ProcessMessage b msg w).batch = (List.range msg.length).filterMap (unitAt b msg) := by
  rw [ProcessMessage_eq]
  rfl

/-- The tracer calls made by one call. -/
theorem ProcessMessage_emitted (b : Bloblang) (msg : Message) (w : Backends) :
    (ProcessMessage b msg w).emitted w =
      (msg.enumFrom 0).flatMap (fun x => unitEvents b msg x.1 x.2) := by
  rw [ProcessMessage_eq]
  simp [Result.emitted]

/-- The sample run, evaluated: the replaced unit, then the flagged original of the
failed one; the deleted unit is gone; counters, log and tracer calls. -/
theorem ProcessMessage_sample :
    ProcessMessage sampleProc sampleBatch Backends.zero =
      { msgs := [[partEmpty,
                  { data := partA.data, metadata := partA.metadata, span := none,
                    failFlag := some "failed to execute mapping" }]],
        resp := none,
        env := { mCount := 1, mErr := 1, mSent := 2, mBatchSent := 1,
                 log := ["failed to execute mapping\n"],
                 spans := [SpanEvent.StartSpan 0 "bloblang" none, SpanEvent.Finish 0,
                           SpanEvent.StartSpan 1 "bloblang" (some 7), SpanEvent.Finish 1,
                           SpanEvent.StartSpan 2 "bloblang" none,
                           SpanEvent.SetTag 2 "error" true,
                           SpanEvent.LogFields 2
                             [("event", "error"), ("type", "failed to execute mapping")],
                           SpanEvent.Finish 2] } } := by
  decide

/-- Inside the batch, a position survives exactly when it is not deleted. -/
theorem survives_eq_not_deleted (b : Bloblang) (msg : Message) (i : Nat) (hi : i < msg.length) :
    survives b msg i = !deleted b msg i := by
  unfold survives unitAt unitFor deleted
  rw [List.getElem?_eq_getElem hi]
  rcases h : b.exec.MapPart i msg with ⟨p, err⟩
  cases err <;> cases p <;> simp

/-- Inside the batch, a position survives exactly when it is replaced or failed. -/
theorem survives_eq_replaced_or_failed (b : Bloblang) (msg : Message) (i : Nat)
    (hi : i < msg.length) :
    survives b msg i = (replaced b msg i || failed b msg i) := by
  unfold survives unitAt unitFor replaced failed
  rw [List.getElem?_eq_getElem hi]
  rcases h : b.exec.MapPart i msg with ⟨p, err⟩
  cases err <;> cases p <;> simp

/-- Outside the batch nothing survives. -/
theorem survives_lt_length (b : Bloblang) (msg : Message) (i : Nat)
    (h : survives b msg i = true) : i < msg.length := by
  by_contra hcon
  have hnone : msg[i]? = none := List.getElem?_eq_none (Nat.le_of_not_lt hcon)
  simp [survives, unitAt, hnone] at h

/-- The three outcomes split the positions below any bound inside the batch. -/
theorem outcome_counts (b : Bloblang) (msg : Message) (n : Nat) (hn : n ≤ msg.length) :
    (List.range n).countP (survives b msg) + (List.range n).countP (deleted b msg) = n ∧
    (List.range n).countP (survives b msg) =
      (List.range n).countP (replaced b msg) + (List.range n).countP (failed b msg) := by
  induction n with
  | zero => simp
  | succ n ih =>
    obtain ⟨h1, h2⟩ := ih (Nat.le_of_succ_le hn)
    have hs := survives_eq_not_deleted b msg n hn
    have hr := survives_eq_replaced_or_failed b msg n hn
    have hex : ¬ (replaced b msg n = true ∧ failed b msg n = true) := by
      unfold replaced failed
      rcases h : b.exec.MapPart n msg with ⟨p, err⟩
      cases err <;> simp
    simp only [List.range_succ, List.countP_append, List.countP_cons, List.countP_nil]
    cases hd : deleted b msg n <;> cases hrp : replaced b msg n <;>
      cases hf : failed b msg n <;> simp_all <;> omega

/-- The length of the returned batch, by outcome counts. -/
theorem batch_length_counts (b : Bloblang) (msg : Message) (w : Backends) :
    (ProcessMessage b msg w).batch.length + deletedCount b msg = msg.length ∧
    (ProcessMessage b msg w).batch.length = replacedCount b msg + failedCount b msg := by
  rw [ProcessMessage_batch, length_filterMap_range]
  exact outcome_counts b msg msg.length (Nat.le_refl _)

/-! ## Output batch -/

/-- C1: the single batch returned by `ProcessMessage` has length `len(B)` minus
the number of positions whose outcome is a deletion (no unit and no error);
equivalently, output length plus deletions is the input length. -/
theorem C1_output_length (b : Bloblang) (msg : Message) (w : Backends) :
    (ProcessMessage b msg w).msgs.map List.length = [msg.length - deletedCount b msg] ∧
    (ProcessMessage b msg w).batch.length + deletedCount b msg = msg.length := by
  have h := (batch_length_counts b msg w).1
  refine ⟨?_, h⟩
  rw [ProcessMessage_batch] at h
  rw [ProcessMessage_eq]
  simp only [List.map_cons, List.map_nil, List.cons.injEq, and_true]
  omega

/-- C2: the output batch is exactly the sequence, in input order, of the units
owed to the positions whose outcome is Replaced or Failed, with nothing for a
Deleted position: the unit of a surviving position sits at the index that
counts the survivors before it, that index grows strictly with the position,
and every output index comes from a position that was not deleted. -/
theorem C2_order_preserved (b : Bloblang) (msg : Message) (w : Backends) :
    (ProcessMessage b msg w).batch = (List.range msg.length).filterMap (unitAt b msg) ∧
    (∀ (i : Nat) (u : Part), unitAt b msg i = some u →
      (ProcessMessage b msg w).batch[outIndex b msg i]? = some u) ∧
    (∀ i j : Nat, i < j → survives b msg i = true → survives b msg j = true →
      outIndex b msg i < outIndex b msg j) ∧
    (∀ i : Nat, i < msg.length → deleted b msg i = true → unitAt b msg i = none) ∧
    (∀ k : Nat, k < (ProcessMessage b msg w).batch.length →
      ∃ i : Nat, i < msg.length ∧ deleted b msg i = false ∧ outIndex b msg i = k ∧
        (ProcessMessage b msg w).batch[k]? = unitAt b msg i) := by
  refine ⟨ProcessMessage_batch b msg w, ?_, ?_, ?_, ?_⟩
  · intro i u hu
    have hi : i < msg.length := survives_lt_length b msg i (by simp [survives, hu])
    rw [ProcessMessage_batch]
    exact getElem?_filterMap_range (unitAt b msg) msg.length i u hi hu
  · intro i j hij hsi _
    exact countP_range_lt (survives b msg) hij hsi
  · intro i hi hd
    have hs := survives_eq_not_deleted b msg i hi
    rw [hd] at hs
    simpa [survives] using hs
  · intro k hk
    rw [ProcessMessage_batch, length_filterMap_range] at hk
    obtain ⟨i, hi, hsi, hc⟩ := exists_countP_range_eq (survives b msg) msg.length k hk
    have hd : deleted b msg i = false := by
      have hs := survives_eq_not_deleted b msg i hi
      rw [hsi] at hs
      simpa using hs.symm
    refine ⟨i, hi, hd, hc, ?_⟩
    obtain ⟨u, hu⟩ := Option.isSome_iff_exists.mp hsi
    rw [ProcessMessage_batch, hu, ← hc]
    exact getElem?_filterMap_range (unitAt b msg) msg.length i u hi hu

/-- C2, on the sample batch: position 1 is deleted, so the unit of position 2 is
the second output unit, after the unit of position 0. -/
theorem C2_order_preserved_witness :
    (ProcessMessage sampleProc sampleBatch Backends.zero).batch[outIndex sampleProc sampleBatch 2]?
        = some (FlagErr partA.Copy { Error := "failed to execute mapping" }) ∧
      outIndex sampleProc sampleBatch 0 < outIndex sampleProc sampleBatch 2 ∧
      unitAt sampleProc sampleBatch 1 = none :=
  ⟨(C2_order_preserved sampleProc sampleBatch Backends.zero).2.1 2 _ rfl,
   (C2_order_preserved sampleProc sampleBatch Backends.zero).2.2.1 0 2 (by decide) rfl rfl,
   (C2_order_preserved sampleProc sampleBatch Backends.zero).2.2.2.1 1 (by decide) rfl⟩

/-- C4: for a position where `MapPart` returns a unit `p` and no error, the output
unit of that position is `p` itself, payload, metadata and flag as the engine
produced them, also when the payload of `p` is empty. -/
theorem C4_replaced_unit_unchanged (b : Bloblang) (msg : Message) (w : Backends) (i : Nat)
    (p : Part) (hi : i < msg.length) (hp : b.exec.MapPart i msg = (some p, none)) :
    (ProcessMessage b msg w).batch[outIndex b msg i]? = some p := by
  have hu : unitAt b msg i = some p := by
    simp [unitAt, unitFor, List.getElem?_eq_getElem hi, hp]
  rw [ProcessMessage_batch]
  exact getElem?_filterMap_range (unitAt b msg) msg.length i p hi hu

/-- C4, on the sample batch: position 0 is replaced by a unit with an empty
payload, which is the first output unit, unflagged. -/
theorem C4_replaced_unit_unchanged_witness :
    (3 : Nat) = sampleBatch.length ∧
    (ProcessMessage sampleProc sampleBatch Backends.zero).batch[outIndex sampleProc sampleBatch 0]?
      = some partEmpty :=
  ⟨rfl, C4_replaced_unit_unchanged sampleProc sampleBatch Backends.zero 0 partEmpty
    (by decide) rfl⟩

/-! ## Counters -/

/-- The counters after any number of calls, from any starting backends. -/
theorem runCalls_counters (calls : List (Bloblang × Message)) :
    ∀ w : Backends,
      (runCalls w calls).mCount = w.mCount + calls.length ∧
      (runCalls w calls).mBatchSent = w.mBatchSent + calls.length ∧
      (runCalls w calls).mSent + totalDeleted calls = w.mSent + totalUnits calls ∧
      (runCalls w calls).mSent = w.mSent + (totalReplaced calls + totalFailed calls) ∧
      (runCalls w calls).mErr = w.mErr + totalFailed calls := by
  induction calls with
  | nil => intro w; simp [runCalls, totalDeleted, totalUnits, totalReplaced, totalFailed]
  | cons c calls ih =>
    intro w
    obtain ⟨h1, h2, h3, h4, h5⟩ := ih (ProcessMessage c.1 c.2 w).env
    obtain ⟨hd, hr⟩ := batch_length_counts c.1 c.2 w
    have e1 : (ProcessMessage c.1 c.2 w).env.mCount = w.mCount + 1 := by
      rw [ProcessMessage_eq]
    have e2 : (ProcessMessage c.1 c.2 w).env.mBatchSent = w.mBatchSent + 1 := by
      rw [ProcessMessage_eq]
    have e3 : (ProcessMessage c.1 c.2 w).env.mSent
        = w.mSent + (ProcessMessage c.1 c.2 w).batch.length := by
      rw [ProcessMessage_batch, ProcessMessage_eq]
    have e4 : (ProcessMessage c.1 c.2 w).env.mErr = w.mErr + failedCount c.1 c.2 := by
      rw [ProcessMessage_eq]
    have hstep : runCalls w (c :: calls) = runCalls (ProcessMessage c.1 c.2 w).env calls := rfl
    have t1 : totalDeleted (c :: calls) = deletedCount c.1 c.2 + totalDeleted calls := by
      simp [totalDeleted]
    have t2 : totalUnits (c :: calls) = c.2.length + totalUnits calls := by
      simp [totalUnits]
    have t3 : totalReplaced (c :: calls) = replacedCount c.1 c.2 + totalReplaced calls := by
      simp [totalReplaced]
    have t4 : totalFailed (c :: calls) = failedCount c.1 c.2 + totalFailed calls := by
      simp [totalFailed]
    have t5 : (c :: calls).length = calls.length + 1 := rfl
    rw [hstep, t1, t2, t3, t4, t5]
    refine ⟨?_, ?_, ?_, ?_, ?_⟩ <;> omega

/-- C5: starting from counters at zero, after any sequence of N calls over
batches totalling U units, D of them deleted and E failed, "count" is N,
"batch.sent" is N and "sent" is U - D, which counts the failed units together
with the replaced ones; and each single call adds exactly 1 to "count" and to
"batch.sent" and the length of its output batch to "sent", whatever that
length. -/
theorem C5_counters (calls : List (Bloblang × Message)) :
    (runCalls Backends.zero calls).mCount = calls.length ∧
    (runCalls Backends.zero calls).mBatchSent = calls.length ∧
    (runCalls Backends.zero calls).mSent = totalUnits calls - totalDeleted calls ∧
    totalDeleted calls ≤ totalUnits calls ∧
    (runCalls Backends.zero calls).mSent = totalReplaced calls + totalFailed calls ∧
    (∀ (b : Bloblang) (msg : Message) (w : Backends),
      (ProcessMessage b msg w).env.mCount = w.mCount + 1 ∧
      (ProcessMessage b msg w).env.mBatchSent = w.mBatchSent + 1 ∧
      (ProcessMessage b msg w).env.mSent = w.mSent + (ProcessMessage b msg w).batch.length) := by
  obtain ⟨h1, h2, h3, h4, _⟩ := runCalls_counters calls Backends.zero
  have hz : Backends.zero.mCount = 0 ∧ Backends.zero.mBatchSent = 0 ∧ Backends.zero.mSent = 0 :=
    ⟨rfl, rfl, rfl⟩
  obtain ⟨z1, z2, z3⟩ := hz
  rw [z1] at h1
  rw [z2] at h2
  rw [z3] at h3 h4
  refine ⟨by omega, by omega, by omega, by omega, by omega, ?_⟩
  intro b msg w
  rw [ProcessMessage_batch, ProcessMessage_eq]
  exact ⟨rfl, rfl, rfl⟩

/-- C6: one call adds to the "error" counter exactly the number of positions for
which `MapPart` returned an error; in the loop, a failed position adds exactly 1
and a replaced or deleted position adds nothing. -/
theorem C6_error_counter (b : Bloblang) (msg : Message) (w : Backends) :
    (ProcessMessage b msg w).env.mErr = w.mErr + failedCount b msg ∧
    (∀ (i : Nat) (part : Part) (s : LoopState),
      (processPart b msg i part s).1.env.mErr
        = s.env.mErr + (if (b.exec.MapPart i msg).2.isSome then 1 else 0)) := by
  refine ⟨?_, ?_⟩
  · rw [ProcessMessage_eq]
  · intro i part s
    rw [processPart_eq]
    rfl

/-- C7: every call returns a slice holding exactly one batch, and a nil
response, whatever the outcomes of its units. -/
theorem C7_one_batch_no_error (b : Bloblang) (msg : Message) (w : Backends) :
    (ProcessMessage b msg w).msgs = [(ProcessMessage b msg w).batch] ∧
    (ProcessMessage b msg w).msgs.length = 1 ∧
    (ProcessMessage b msg w).resp = none := by
  rw [ProcessMessage_batch, ProcessMessage_eq]
  exact ⟨rfl, rfl, rfl⟩

/-! ## Failure isolation -/

/-- Taking out the value produced at position `i` is the same as never producing
it. -/
theorem eraseIdx_filterMap_range {β : Type} (f : Nat → Option β) (n i : Nat) (hi : i < n) :
    ((f i).isSome = true →
      ((List.range n).filterMap f).eraseIdx ((List.range i).countP (fun j => (f j).isSome)) =
        (List.range n).filterMap (fun j => if j = i then none else f j)) ∧
    ((f i).isSome = false →
      (List.range n).filterMap f =
        (List.range n).filterMap (fun j => if j = i then none else f j)) := by
  have hsplit : List.range n = List.range i ++ (i :: List.range' (i + 1) (n - (i + 1))) := by
    have h1 := List.range'_append 0 i (n - i) 1
    have h2 := List.range'_succ i (n - (i + 1)) 1
    have h3 : n - (i + 1) + 1 = n - i := by omega
    have h4 : n - i + i = n := by omega
    rw [h3] at h2
    rw [h4] at h1
    simp only [Nat.zero_add, Nat.one_mul] at h1
    rw [List.range_eq_range', ← h1, h2, List.range_eq_range']
  have hA : (List.range i).filterMap (fun j => if j = i then none else f j)
      = (List.range i).filterMap f := by
    apply List.filterMap_congr
    intro x hx
    have hlt : x < i := List.mem_range.mp hx
    have hne : x ≠ i := by omega
    simp [hne]
  have hC : (List.range' (i + 1) (n - (i + 1))).filterMap (fun j => if j = i then none else f j)
      = (List.range' (i + 1) (n - (i + 1))).filterMap f := by
    apply List.filterMap_congr
    intro x hx
    have hlt : i + 1 ≤ x := (List.mem_range'_1.mp hx).1
    have hne : x ≠ i := by omega
    simp [hne]
  have hlen := length_filterMap_range f i
  constructor
  · intro hsome
    obtain ⟨u, hf⟩ := Option.isSome_iff_exists.mp hsome
    rw [hsplit, List.filterMap_append, List.filterMap_append, List.filterMap_cons,
      List.filterMap_cons, hA, hC, ← hlen, hf]
    simp only [if_true]
    rw [List.eraseIdx_append_of_length_le (Nat.le_refl _), Nat.sub_self,
      List.eraseIdx_cons_zero]
  · intro hnone
    have hf : f i = none := by
      cases h : f i with
      | none => rfl
      | some u => simp [h] at hnone
    rw [hsplit, List.filterMap_append, List.filterMap_append, List.filterMap_cons,
      List.filterMap_cons, hA, hC, hf]
    simp

/-- The output batch without the unit of position `i` does not depend on what
the engine did at `i`. -/
theorem withoutUnit_batch (b : Bloblang) (msg : Message) (w : Backends) (i : Nat) :
    withoutUnit b msg i (ProcessMessage b msg w).batch =
      (List.range msg.length).filterMap (fun j => if j = i then none else unitAt b msg j) := by
  rw [ProcessMessage_batch]
  unfold withoutUnit
  by_cases hi : i < msg.length
  · obtain ⟨h1, h2⟩ := eraseIdx_filterMap_range (unitAt b msg) msg.length i hi
    cases hs : survives b msg i with
    | true => simpa [outIndex, survives] using h1 hs
    | false => simpa using h2 hs
  · have hs : survives b msg i = false := by
      cases h : survives b msg i with
      | false => rfl
      | true => exact absurd (survives_lt_length b msg i h) hi
    rw [hs]
    simp only [Bool.false_eq_true, if_false]
    apply List.filterMap_congr
    intro x hx
    have hlt : x < msg.length := List.mem_range.mp hx
    have hne : x ≠ i := by omega
    simp [hne]

/-- Two engines that agree at a position owe it the same output unit. -/
theorem unitAt_congr (b1 b2 : Bloblang) (msg : Message) (j : Nat)
    (h : j < msg.length → b1.exec.MapPart j msg = b2.exec.MapPart j msg) :
    unitAt b1 msg j = unitAt b2 msg j := by
  unfold unitAt
  by_cases hj : j < msg.length
  · rw [List.getElem?_eq_getElem hj]
    simp only [unitFor, h hj]
  · rw [List.getElem?_eq_none (Nat.le_of_not_lt hj)]

/-- Every tracer call owed to a position is about that position. -/
theorem unitEvents_unit (b : Bloblang) (msg : Message) (j : Nat) (a : Part) :
    ∀ ev ∈ unitEvents b msg j a, ev.unit = j := by
  intro ev hev
  unfold unitEvents at hev
  cases h : (b.exec.MapPart j msg).2 with
  | none =>
    rw [h] at hev
    simp only [List.mem_cons, List.mem_singleton, List.not_mem_nil, or_false] at hev
    rcases hev with rfl | rfl <;> rfl
  | some err =>
    rw [h] at hev
    simp only [List.mem_cons, List.mem_singleton, List.not_mem_nil, or_false] at hev
    rcases hev with rfl | rfl | rfl | rfl <;> rfl

/-- Filtering the trace of a batch commutes with changes that the filter does
not see. -/
theorem filter_flatMap_enumFrom_congr {α γ : Type} (q : γ → Bool) (g1 g2 : Nat → α → List γ)
    (ps : List α) :
    ∀ k : Nat, (∀ (j : Nat) (a : α), k ≤ j → j < k + ps.length →
        (g1 j a).filter q = (g2 j a).filter q) →
      ((ps.enumFrom k).flatMap (fun x => g1 x.1 x.2)).filter q =
        ((ps.enumFrom k).flatMap (fun x => g2 x.1 x.2)).filter q := by
  induction ps with
  | nil => intro k _; rfl
  | cons p ps ih =>
    intro k h
    rw [List.enumFrom_cons, List.flatMap_cons, List.flatMap_cons, List.filter_append,
      List.filter_append]
    have hhead := h k p (Nat.le_refl k) (by simp)
    have htail := ih (k + 1) (fun j a h1 h2 => h j a (by omega) (by simp; omega))
    simp only at hhead
    rw [hhead, htail]

/-- C8: failure isolation. If two behaviours of the mapping engine return the
same result at every position of the batch other than `i`, then the two runs
owe every other position the same output unit (present or not, same payload,
same flag), the two output batches are equal once the unit of position `i` is
taken out of each (same units, same order), and the tracer calls about the
other positions are the same. -/
theorem C8_failure_isolation (b1 b2 : Bloblang) (msg : Message) (w : Backends) (i : Nat)
    (hagree : ∀ j : Nat, j < msg.length → j ≠ i →
      b1.exec.MapPart j msg = b2.exec.MapPart j msg) :
    (∀ j : Nat, j ≠ i → unitAt b1 msg j = unitAt b2 msg j) ∧
    (∀ (j : Nat) (u : Part), j ≠ i → unitAt b1 msg j = some u →
      (ProcessMessage b1 msg w).batch[outIndex b1 msg j]? = some u ∧
      (ProcessMessage b2 msg w).batch[outIndex b2 msg j]? = some u) ∧
    withoutUnit b1 msg i (ProcessMessage b1 msg w).batch
      = withoutUnit b2 msg i (ProcessMessage b2 msg w).batch ∧
    ((ProcessMessage b1 msg w).emitted w).filter (fun ev => ev.unit != i)
      = ((ProcessMessage b2 msg w).emitted w).filter (fun ev => ev.unit != i) := by
  have hunit : ∀ j : Nat, j ≠ i → unitAt b1 msg j = unitAt b2 msg j :=
    fun j hj => unitAt_congr b1 b2 msg j (fun hlt => hagree j hlt hj)
  refine ⟨hunit, ?_, ?_, ?_⟩
  · intro j u hj hu
    have hu2 : unitAt b2 msg j = some u := by rw [← hunit j hj]; exact hu
    have hlt : j < msg.length := survives_lt_length b1 msg j (by simp [survives, hu])
    constructor
    · rw [ProcessMessage_batch]
      exact getElem?_filterMap_range (unitAt b1 msg) msg.length j u hlt hu
    · rw [ProcessMessage_batch]
      exact getElem?_filterMap_range (unitAt b2 msg) msg.length j u hlt hu2
  · rw [withoutUnit_batch, withoutUnit_batch]
    apply List.filterMap_congr
    intro x _
    by_cases hx : x = i
    · simp [hx]
    · simp [hx, hunit x hx]
  · rw [ProcessMessage_emitted, ProcessMessage_emitted]
    apply filter_flatMap_enumFrom_congr
    intro j a _ hlt
    by_cases hj : j = i
    · subst hj
      have e1 : (unitEvents b1 msg j a).filter (fun ev => ev.unit != j) = [] := by
        rw [List.filter_eq_nil_iff]
        intro ev hev
        simp [unitEvents_unit b1 msg j a ev hev]
      have e2 : (unitEvents b2 msg j a).filter (fun ev => ev.unit != j) = [] := by
        rw [List.filter_eq_nil_iff]
        intro ev hev
        simp [unitEvents_unit b2 msg j a ev hev]
      rw [e1, e2]
    · have hm := hagree j (by omega) hj
      simp only [unitEvents, hm]

/-- C8, on the sample batch: the two sample engines differ only at position 1
(deletion against failure), and leave the units of positions 0 and 2 alike. -/
theorem C8_failure_isolation_witness :
    withoutUnit sampleProc sampleBatch 1 (ProcessMessage sampleProc sampleBatch Backends.zero).batch
      = withoutUnit sampleProcFailing sampleBatch 1
          (ProcessMessage sampleProcFailing sampleBatch Backends.zero).batch ∧
    unitAt sampleProc sampleBatch 2 = unitAt sampleProcFailing sampleBatch 2 :=
  ⟨(C8_failure_isolation sampleProc sampleProcFailing sampleBatch Backends.zero 1
      (by
        intro j hj hne
        have h3 : j < 3 := hj
        rcases j with _ | _ | _ | j
        · rfl
        · exact absurd rfl hne
        · rfl
        · omega)).2.2.1,
   (C8_failure_isolation sampleProc sampleProcFailing sampleBatch Backends.zero 1
      (by
        intro j hj hne
        have h3 : j < 3 := hj
        rcases j with _ | _ | _ | j
        · rfl
        · exact absurd rfl hne
        · rfl
        · omega)).1 2 (by decide)⟩

/-! ## Tracing spans -/

/-- The tracer calls owed to one position start one span and finish one span. -/
theorem unitEvents_counts (b : Bloblang) (msg : Message) (j : Nat) (a : Part) :
    (unitEvents b msg j a).countP SpanEvent.isStart = 1 ∧
    (unitEvents b msg j a).countP SpanEvent.isFinish = 1 := by
  unfold unitEvents
  cases (b.exec.MapPart j msg).2 <;> simp [SpanEvent.isStart, SpanEvent.isFinish]

/-- Within the tracer calls owed to one position, the span is never finished
before it is started and never started twice. -/
theorem unitEvents_take (b : Bloblang) (msg : Message) (j : Nat) (a : Part) (m : Nat) :
    ((unitEvents b msg j a).take m).countP SpanEvent.isFinish
      ≤ ((unitEvents b msg j a).take m).countP SpanEvent.isStart ∧
    ((unitEvents b msg j a).take m).countP SpanEvent.isStart
      ≤ ((unitEvents b msg j a).take m).countP SpanEvent.isFinish + 1 := by
  unfold unitEvents
  cases (b.exec.MapPart j msg).2 <;> rcases m with _ | _ | _ | _ | _ | m <;>
    simp [SpanEvent.isStart, SpanEvent.isFinish]

/-- Starts and finishes in the trace of any run of consecutive positions. -/
theorem flatMap_unitEvents_counts (b : Bloblang) (msg : Message) (ps : List Part) :
    ∀ k : Nat,
      ((ps.enumFrom k).flatMap (fun x => unitEvents b msg x.1 x.2)).countP SpanEvent.isStart
        = ps.length ∧
      ((ps.enumFrom k).flatMap (fun x => unitEvents b msg x.1 x.2)).countP SpanEvent.isFinish
        = ps.length := by
  induction ps with
  | nil => intro k; simp
  | cons p ps ih =>
    intro k
    obtain ⟨h1, h2⟩ := ih (k + 1)
    obtain ⟨c1, c2⟩ := unitEvents_counts b msg k p
    rw [List.enumFrom_cons, List.flatMap_cons, List.countP_append, List.countP_append,
      h1, h2, c1, c2, List.length_cons]
    constructor <;> omega

/-- After any number of tracer calls of a run of consecutive positions, at most
one span is open. -/
theorem flatMap_unitEvents_take (b : Bloblang) (msg : Message) (ps : List Part) :
    ∀ k m : Nat,
      (((ps.enumFrom k).flatMap (fun x => unitEvents b msg x.1 x.2)).take m).countP
          SpanEvent.isFinish
        ≤ (((ps.enumFrom k).flatMap (fun x => unitEvents b msg x.1 x.2)).take m).countP
          SpanEvent.isStart ∧
      (((ps.enumFrom k).flatMap (fun x => unitEvents b msg x.1 x.2)).take m).countP
          SpanEvent.isStart
        ≤ (((ps.enumFrom k).flatMap (fun x => unitEvents b msg x.1 x.2)).take m).countP
          SpanEvent.isFinish + 1 := by
  induction ps with
  | nil => intro k m; simp
  | cons p ps ih =>
    intro k m
    rw [List.enumFrom_cons, List.flatMap_cons, List.take_append_eq_append_take,
      List.countP_append, List.countP_append]
    dsimp only
    by_cases hm : m ≤ (unitEvents b msg k p).length
    · have hz : m - (unitEvents b msg k p).length = 0 := by omega
      rw [hz, List.take_zero]
      simpa using unitEvents_take b msg k p m
    · have hfull : (unitEvents b msg k p).take m = unitEvents b msg k p :=
        List.take_of_length_le (by omega)
      obtain ⟨c1, c2⟩ := unitEvents_counts b msg k p
      obtain ⟨h1, h2⟩ := ih (k + 1) (m - (unitEvents b msg k p).length)
      rw [hfull, c1, c2]
      constructor <;> omega

/-- The finish of the span of a position is immediately followed by the start
of the span of the next position. -/
theorem flatMap_unitEvents_adjacent (b : Bloblang) (msg : Message) (ps : List Part) :
    ∀ (k i : Nat) (next : Part), ps[i + 1]? = some next →
      ∃ pre post : List SpanEvent,
        (ps.enumFrom k).flatMap (fun x => unitEvents b msg x.1 x.2) =
          pre ++ SpanEvent.Finish (k + i)
            :: SpanEvent.StartSpan (k + i + 1) TypeBloblang (GetSpan next) :: post := by
  induction ps with
  | nil => intro k i next h; simp at h
  | cons p ps ih =>
    intro k i next h
    cases i with
    | zero =>
      cases ps with
      | nil => simp at h
      | cons p2 rest =>
        have hn : p2 = next := by simpa using h
        subst hn
        have hlast : ∃ init, unitEvents b msg k p = init ++ [SpanEvent.Finish k] := by
          unfold unitEvents
          cases hc : (b.exec.MapPart k msg).2 with
          | none => exact ⟨[_], rfl⟩
          | some err => exact ⟨[_, _, _], rfl⟩
        have hfirst : ∃ tl, unitEvents b msg (k + 1) p2
            = SpanEvent.StartSpan (k + 1) TypeBloblang (GetSpan p2) :: tl := by
          unfold unitEvents
          cases hc : (b.exec.MapPart (k + 1) msg).2 with
          | none => exact ⟨_, rfl⟩
          | some err => exact ⟨_, rfl⟩
        obtain ⟨init, hinit⟩ := hlast
        obtain ⟨tl, htl⟩ := hfirst
        refine ⟨init, tl ++ (rest.enumFrom (k + 1 + 1)).flatMap
          (fun x => unitEvents b msg x.1 x.2), ?_⟩
        rw [List.enumFrom_cons, List.flatMap_cons, List.enumFrom_cons, List.flatMap_cons]
        simp only [] 
        rw [hinit, htl]
        simp
    | succ i =>
      have h2 : ps[i + 1]? = some next := by simpa using h
      obtain ⟨pre, post, hpp⟩ := ih (k + 1) i next h2
      refine ⟨unitEvents b msg k p ++ pre, post, ?_⟩
      rw [List.enumFrom_cons, List.flatMap_cons, hpp]
      have e1 : k + 1 + i = k + (i + 1) := by omega
      rw [e1]
      simp

/-- C9: in the tracer calls of one `ProcessMessage` call on a batch of n units,
exactly n spans are started and exactly n are finished; after any number of
those calls no span has been finished before it was started and at most one
is open; and the finish of the span of unit i comes immediately before the
start of the span of unit i+1. -/
theorem C9_spans_sequential (b : Bloblang) (msg : Message) (w : Backends) :
    (ProcessMessage b msg w).env.spans = w.spans ++ (ProcessMessage b msg w).emitted w ∧
    ((ProcessMessage b msg w).emitted w).countP SpanEvent.isStart = msg.length ∧
    ((ProcessMessage b msg w).emitted w).countP SpanEvent.isFinish = msg.length ∧
    (∀ m : Nat,
      (((ProcessMessage b msg w).emitted w).take m).countP SpanEvent.isFinish
        ≤ (((ProcessMessage b msg w).emitted w).take m).countP SpanEvent.isStart ∧
      (((ProcessMessage b msg w).emitted w).take m).countP SpanEvent.isStart
        ≤ (((ProcessMessage b msg w).emitted w).take m).countP SpanEvent.isFinish + 1) ∧
    (∀ (i : Nat) (next : Part), msg[i + 1]? = some next →
      ∃ pre post : List SpanEvent,
        (ProcessMessage b msg w).emitted w =
          pre ++ SpanEvent.Finish i
            :: SpanEvent.StartSpan (i + 1) TypeBloblang (GetSpan next) :: post) := by
  refine ⟨?_, ?_, ?_, ?_, ?_⟩
  · rw [ProcessMessage_emitted, ProcessMessage_eq]
  · rw [ProcessMessage_emitted]
    exact (flatMap_unitEvents_counts b msg msg 0).1
  · rw [ProcessMessage_emitted]
    exact (flatMap_unitEvents_counts b msg msg 0).2
  · intro m
    rw [ProcessMessage_emitted]
    exact flatMap_unitEvents_take b msg msg 0 m
  · intro i next h
    rw [ProcessMessage_emitted]
    have := flatMap_unitEvents_adjacent b msg msg 0 i next h
    simpa using this

/-- The tracer calls about a position, among those owed to another position. -/
theorem filter_unitEvents (b : Bloblang) (msg : Message) (i j : Nat) (a : Part) :
    (unitEvents b msg j a).filter (fun ev => ev.unit == i)
      = if j = i then unitEvents b msg j a else [] := by
  by_cases h : j = i
  · rw [if_pos h, List.filter_eq_self]
    intro ev hev
    simp [unitEvents_unit b msg j a ev hev, h]
  · rw [if_neg h, List.filter_eq_nil_iff]
    intro ev hev
    simp [unitEvents_unit b msg j a ev hev, h]

/-- A run of positions that starts after `i` has no tracer call about `i`. -/
theorem filter_unit_flatMap_later (b : Bloblang) (msg : Message) (i : Nat) (ps : List Part) :
    ∀ k : Nat, i < k →
      ((ps.enumFrom k).flatMap (fun x => unitEvents b msg x.1 x.2)).filter
        (fun ev => ev.unit == i) = [] := by
  induction ps with
  | nil => intro k _; rfl
  | cons p ps ih =>
    intro k hk
    rw [List.enumFrom_cons, List.flatMap_cons, List.filter_append, ih (k + 1) (by omega)]
    dsimp only
    rw [filter_unitEvents, if_neg (by omega)]
    rfl

/-- The tracer calls about a position of a run are exactly those owed to it. -/
theorem filter_unit_flatMap (b : Bloblang) (msg : Message) (ps : List Part) :
    ∀ (k i : Nat) (part : Part), ps[i]? = some part →
      ((ps.enumFrom k).flatMap (fun x => unitEvents b msg x.1 x.2)).filter
        (fun ev => ev.unit == k + i) = unitEvents b msg (k + i) part := by
  induction ps with
  | nil => intro k i part h; simp at h
  | cons p ps ih =>
    intro k i part h
    rw [List.enumFrom_cons, List.flatMap_cons, List.filter_append]
    dsimp only
    cases i with
    | zero =>
      have hp : p = part := by simpa using h
      subst hp
      rw [Nat.add_zero, filter_unitEvents, if_pos rfl,
        filter_unit_flatMap_later b msg k ps (k + 1) (by omega), List.append_nil]
    | succ i =>
      have h2 : ps[i]? = some part := by simpa using h
      have e1 : k + (i + 1) = k + 1 + i := by omega
      rw [filter_unitEvents, if_neg (by omega), e1, ih (k + 1) i part h2]
      rfl

/-- C10: the tracer calls about the span of a unit are, in order: its start, then
(exactly when `MapPart` returned an error for that unit) the tag error=true and
a log record whose fields carry the error text, then its finish. For a replaced
or deleted unit the span is started and finished with no tag and no log
fields. -/
theorem C10_error_tag_iff_failed (b : Bloblang) (msg : Message) (w : Backends) (i : Nat)
    (part : Part) (hpart : msg[i]? = some part) :
    (∀ err : GoError, (b.exec.MapPart i msg).2 = some err →
      ((ProcessMessage b msg w).emitted w).filter (fun ev => ev.unit == i) =
        [SpanEvent.StartSpan i TypeBloblang (GetSpan part),
         SpanEvent.SetTag i "error" true,
         SpanEvent.LogFields i [("event", "error"), ("type", err.Error)],
         SpanEvent.Finish i]) ∧
    ((b.exec.MapPart i msg).2 = none →
      ((ProcessMessage b msg w).emitted w).filter (fun ev => ev.unit == i) =
        [SpanEvent.StartSpan i TypeBloblang (GetSpan part), SpanEvent.Finish i]) ∧
    (SpanEvent.SetTag i "error" true ∈ (ProcessMessage b msg w).emitted w
      ↔ (b.exec.MapPart i msg).2.isSome = true) ∧
    ((∃ fields, SpanEvent.LogFields i fields ∈ (ProcessMessage b msg w).emitted w)
      ↔ (b.exec.MapPart i msg).2.isSome = true) := by
  have hfilter : ((ProcessMessage b msg w).emitted w).filter (fun ev => ev.unit == i)
      = unitEvents b msg i part := by
    rw [ProcessMessage_emitted]
    have := filter_unit_flatMap b msg msg 0 i part hpart
    simpa using this
  have hmem : ∀ ev : SpanEvent, ev.unit = i →
      (ev ∈ (ProcessMessage b msg w).emitted w ↔ ev ∈ unitEvents b msg i part) := by
    intro ev hev
    rw [← hfilter, List.mem_filter]
    simp [hev]
  refine ⟨?_, ?_, ?_, ?_⟩
  · intro err herr
    rw [hfilter]
    simp only [unitEvents, herr]
  · intro hnone
    rw [hfilter]
    simp only [unitEvents, hnone]
  · rw [hmem (SpanEvent.SetTag i "error" true) rfl]
    unfold unitEvents
    cases (b.exec.MapPart i msg).2 <;> simp
  · constructor
    · rintro ⟨fields, hf⟩
      rw [hmem (SpanEvent.LogFields i fields) rfl] at hf
      unfold unitEvents at hf
      cases hc : (b.exec.MapPart i msg).2 with
      | none =>
        rw [hc] at hf
        simp at hf
      | some err => rfl
    · intro hsome
      obtain ⟨err, herr⟩ := Option.isSome_iff_exists.mp hsome
      refine ⟨[("event", "error"), ("type", err.Error)], ?_⟩
      rw [hmem (SpanEvent.LogFields i [("event", "error"), ("type", err.Error)]) rfl]
      simp [unitEvents, herr]

/-- C10, on the sample batch: position 2 fails, so its span is started as a root
span, tagged, given the log record and finished; position 1 is deleted and its
span, a child of the upstream span 7, is only started and finished. -/
theorem C10_error_tag_iff_failed_witness :
    ((ProcessMessage sampleProc sampleBatch Backends.zero).emitted Backends.zero).filter
        (fun ev => ev.unit == 2) =
      [SpanEvent.StartSpan 2 TypeBloblang none,
       SpanEvent.SetTag 2 "error" true,
       SpanEvent.LogFields 2 [("event", "error"), ("type", "failed to execute mapping")],
       SpanEvent.Finish 2] ∧
    ((ProcessMessage sampleProc sampleBatch Backends.zero).emitted Backends.zero).filter
        (fun ev => ev.unit == 1) =
      [SpanEvent.StartSpan 1 TypeBloblang (some 7), SpanEvent.Finish 1] :=
  ⟨(C10_error_tag_iff_failed sampleProc sampleBatch Backends.zero 2 partA rfl).1
      { Error := "failed to execute mapping" } rfl,
   (C10_error_tag_iff_failed sampleProc sampleBatch Backends.zero 1 partB rfl).2.1 rfl⟩

end Benthos
